import Mathlib

/-!
Verification of the RMVL perception core (candidate matcher, conflict
resolution, trackers, combo cloning, tag construction) against its
natural-language specification.

The C++ code is shallowly embedded. Geometric quantities (pixel
coordinates, widths, heights, match errors, angles in degrees) are
modelled as integers: the C++ uses `float`/`double`, but every property
at issue depends only on exact comparisons and on small-integer
arithmetic, and an integer model keeps every definition executable by
the kernel. Conversions from fractional values to `int` in the C++ are
modelled with truncating division (`Int.tdiv`), matching the
toward-zero truncation of a C++ float-to-int cast. Pointer identity of
heap objects (`shared_ptr` equality in the C++) is modelled with
explicit numeric identities (`id` fields, or addresses into a store).
`std::sort` with a strict comparator is modelled by `List.insertionSort`
with the corresponding non-strict relation: both produce a permutation
of the input that is pairwise ordered, which is the only guarantee the
C++ standard gives and the only one the proofs use.
-/

set_option autoImplicit false

namespace RMVL

/-- Integer 2D point, modelling `cv::Point2f` / `cv::Point`. -/
structure Pt where
  x : ℤ
  y : ℤ
deriving DecidableEq

/-- A light-blob feature as used by `GyroDetector` (`LightBlob`): object
identity of the underlying `feature_ptr`, its `getCenter()` and its
`getHeight()`. -/
structure Blob where
  id : ℕ
  center : Pt
  height : ℤ
deriving DecidableEq

/-- An armor combo as used by `GyroDetector::eraseErrorArmors` and
`findArmors`: object identity of the `armor_ptr`, the identities of its
left (`at(0)`) and right (`at(1)`) features, its `getWidth()` and its
`getError()`. -/
structure Armor where
  id : ℕ
  left : ℕ
  right : ℕ
  width : ℤ
  error : ℤ
deriving DecidableEq

/-- A BGR image, modelling `cv::Mat`: its `rows`, `cols` and the pixel
access `at<Vec3b>(y, x)` (returned as a `(B, G, R)` triple). -/
structure Image where
  rows : ℤ
  cols : ℤ
  px : ℤ → ℤ → ℤ × ℤ × ℤ

/-! ### GyroDetector: feature extraction and brightness rejection
(src/extra/detector/src/gyro_detector/find.cpp) -/

/-- `GyroDetector::findLightBlobs`: drop contours whose area is below
`MIN_CONTOUR_AREA`, then build a blob from each remaining contour via
`LightBlob::make_feature`, keeping the non-null results. Contour
geometry, `contourArea` (OpenCV) and `make_feature` (external to this
core) are parameters. -/
def findLightBlobs {α : Type} (area : α → ℤ) (minArea : ℤ) (mkBlob : α → Option Blob)
    (contours : List α) : List Blob :=
  contours.filterMap (fun c => if area c < minArea then none else mkBlob c)

/-- Clamping of the sampled x coordinate in `GyroDetector::eraseBrightBlobs`,
exactly as written there: first `x = (x > src.cols) ? src.cols - 1 : x;`,
then `x = (x < 0) ? 1 : x;`. -/
def clampX (cols x : ℤ) : ℤ :=
  let x1 := if x > cols then cols - 1 else x
  if x1 < 0 then 1 else x1

/-- Clamping of the sampled y coordinate in `GyroDetector::eraseBrightBlobs`,
exactly as written there: first `y = y < 0 ? 1 : y;`, then
`y = (y > src.rows) ? src.rows - 1 : y;`. -/
def clampY (rows y : ℤ) : ℤ :=
  let y1 := if y < 0 then 1 else y
  if y1 > rows then rows - 1 else y1

/-- The sampled x coordinate before clamping:
`int x = blob->getCenter().x - blob->getHeight() * i / 5;`. The real
value `cx - h*i/5 = (5*cx - h*i)/5` truncated toward zero. -/
def sampleX (cx h i : ℤ) : ℤ :=
  Int.tdiv (5 * cx - h * i) 5

/-- `int brightness = 0.1 * colors[0] + 0.6 * colors[1] + 0.3 * colors[2];`
over a `(B, G, R)` triple, the fractional value truncated toward zero. -/
def pixelBrightness (bgr : ℤ × ℤ × ℤ) : ℤ :=
  Int.tdiv (bgr.1 + 6 * bgr.2.1 + 3 * bgr.2.2) 10

/-- The offsets `i = -5..5, i ≠ 0` of the sampling loop in
`GyroDetector::eraseBrightBlobs`. -/
def sampleOffsets : List ℤ := [-5, -4, -3, -2, -1, 1, 2, 3, 4, 5]

/-- The summed brightness of one blob in `GyroDetector::eraseBrightBlobs`. -/
def totalBrightness (img : Image) (b : Blob) : ℤ :=
  (sampleOffsets.map (fun i =>
    let x := clampX img.cols (sampleX b.center.x b.height i)
    let y := clampY img.rows b.center.y
    pixelBrightness (img.px y x))).sum

/-- `GyroDetector::eraseBrightBlobs`: erase every blob whose summed
sampled brightness exceeds 1100. -/
def eraseBrightBlobs (img : Image) (blobs : List Blob) : List Blob :=
  blobs.filter (fun b => decide (totalBrightness img b ≤ 1100))

/-! ### GyroDetector: armor matching with containment prune -/

/-- The comparator of the sort in `GyroDetector::findArmors`
(`lhs->getCenter().x < rhs->getCenter().x`), as the corresponding
non-strict relation characterising its sorted outputs. -/
def blobLE (a b : Blob) : Prop := a.center.x ≤ b.center.x

instance : DecidableRel blobLE :=
  fun a b => decidable_of_iff (a.center.x ≤ b.center.x) Iff.rfl

instance : IsTotal Blob blobLE := ⟨fun a b => le_total a.center.x b.center.x⟩

instance : IsTrans Blob blobLE := ⟨fun _ _ _ h1 h2 => le_trans h1 h2⟩

/-- The in-place sort at the top of `GyroDetector::findArmors`. -/
def sortBlobs (blobs : List Blob) : List Blob :=
  List.insertionSort blobLE blobs

/-- The inner loop (index `j`) of `GyroDetector::findArmors` for a fixed
left blob `bi`: `between` holds the blobs at indices strictly between
`i` and the current `j` (the range scanned by the containment check),
and the remaining list holds the blobs from index `j` on. `mk` is
`Armor::make_combo` and `ic` is `Armor::isContainBlob`, both external
to this translation unit. -/
def innerMatch (mk : Blob → Blob → Option Armor) (ic : Blob → Armor → Bool) (bi : Blob) :
    List Blob → List Blob → List Armor
  | _, [] => []
  | between, bj :: rest =>
    match mk bi bj with
    | none => innerMatch mk ic bi (between ++ [bj]) rest
    | some armor =>
      if between.any (fun bk => ic bk armor) then innerMatch mk ic bi (between ++ [bj]) rest
      else armor :: innerMatch mk ic bi (between ++ [bj]) rest

/-- The outer loop (index `i`) of `GyroDetector::findArmors`. -/
def outerMatch (mk : Blob → Blob → Option Armor) (ic : Blob → Armor → Bool) :
    List Blob → List Armor
  | [] => []
  | bi :: rest => innerMatch mk ic bi [] rest ++ outerMatch mk ic rest

/-- `GyroDetector::findArmors`: sort the blobs from left to right, return
no armor when fewer than two blobs exist, otherwise run the pair
matching loops with the containment prune. -/
def findArmors (mk : Blob → Blob → Option Armor) (ic : Blob → Armor → Bool)
    (blobs : List Blob) : List Armor :=
  let s := sortBlobs blobs
  if s.length < 2 then [] else outerMatch mk ic s

/-! ### GyroDetector: conflict resolution -/

/-- All index pairs `i < j` of a list, in the iteration order of the two
nested loops of `GyroDetector::eraseErrorArmors`. -/
def allPairs {γ : Type} : List γ → List (γ × γ)
  | [] => []
  | x :: xs => xs.map (fun y => (x, y)) ++ allPairs xs

/-- One pair comparison in `GyroDetector::eraseErrorArmors`: which armor
(if any) the pair `(a, b)` marks as removable. Shared feature in the
same role: mark the wider (on a width tie the C++ ternary marks `b`,
the later one). Shared feature in opposite roles: mark the one with the
larger error (on a tie, `b`). -/
def markStep (a b : Armor) : Option Armor :=
  if a.left = b.left ∨ a.right = b.right then
    some (if b.width < a.width then a else b)
  else if a.left = b.right ∨ a.right = b.left then
    some (if b.error < a.error then a else b)
  else none

/-- The identities of the armors marked removable by the single pass over
all pairs (the `armor_map` entries set to `true`). Since marks are only
ever set, the set of marked armors does not depend on iteration order. -/
def markedIds (armors : List Armor) : List ℕ :=
  (allPairs armors).filterMap (fun p => (markStep p.1 p.2).map Armor.id)

/-- `GyroDetector::eraseErrorArmors`: when at least two armors exist, mark
removable armors over all pairs and erase every marked armor. -/
def eraseErrorArmors (armors : List Armor) : List Armor :=
  if armors.length < 2 then armors
  else armors.filter (fun a => decide (a.id ∉ markedIds armors))

/-! ### GyroDetector::find -/

/-- `GyroDetector::find`: extract blobs, erase over-bright ones, and only
when at least two blobs survive run armor matching and conflict
resolution and fill the output containers (the C++ pushes the features
and combos inside the `if (blobs.size() >= 2)` block; `findArmors`
sorts the blob vector in place before the features are pushed). -/
def GyroDetector.find {α : Type} (area : α → ℤ) (minArea : ℤ) (mkBlob : α → Option Blob)
    (mk : Blob → Blob → Option Armor) (ic : Blob → Armor → Bool) (img : Image)
    (contours : List α) : List Blob × List Armor :=
  let blobs := eraseBrightBlobs img (findLightBlobs area minArea mkBlob contours)
  if 2 ≤ blobs.length then
    (sortBlobs blobs, eraseErrorArmors (findArmors mk ic blobs))
  else ([], [])

/-! ### GyroTracker: vanish counter
(src/extra/tracker/include/rmvl/tracker/gyro_tracker.h) -/

/-- `GyroTracker::VanishState`. -/
inductive VanishState where
  | VANISH
  | APPEAR
deriving DecidableEq

/-- `GyroTracker::updateVanishState`:
`state == VANISH ? _vanish_num++ : _vanish_num = 0;`, as a function of
the previous counter value. -/
def updateVanishState (state : VanishState) (vanish_num : ℕ) : ℕ :=
  match state with
  | .VANISH => vanish_num + 1
  | .APPEAR => 0

/-! ### RuneTracker: angle unwrapping
(src/autoaim/tracker/include/rmvl/tracker/rune_tracker.h) -/

/-- A chain predicate over consecutive elements of a list (kernel
executable; used instead of `List.Chain'` so concrete instances can be
settled by `decide`). -/
def pairChain {β : Type} (R : β → β → Prop) : List β → Prop
  | [] => True
  | [_] => True
  | x :: y :: l => R x y ∧ pairChain R (y :: l)

instance pairChain.dec {β : Type} (R : β → β → Prop) [DecidableRel R] :
    (l : List β) → Decidable (pairChain R l)
  | [] => isTrue True.intro
  | [_] => isTrue True.intro
  | _ :: y :: l => @instDecidableAnd _ _ inferInstance (pairChain.dec R (y :: l))

/-- Modelled from the spec: the body of `RuneTracker::calculateTotalAngle`
is not part of the sources at hand (only its declaration is). Following
the spec, the new wrapped angle `w` is compared with the last angle
`s.2`; when the raw delta crosses a revolution boundary (exceeds half a
revolution, 180 degrees, in magnitude) the round counter `s.1` is
incremented or decremented accordingly. Angles are in integer degrees. -/
def unwrapStep (s : ℤ × ℤ) (w : ℤ) : ℤ × ℤ :=
  if w - s.2 < -180 then (s.1 + 1, w)
  else if w - s.2 > 180 then (s.1 - 1, w)
  else (s.1, w)

/-- Modelled from the spec: the total angle fed to the filter is
`wrapped_angle + round_counter * full_revolution`. -/
def totalAngle (s : ℤ × ℤ) : ℤ := s.2 + s.1 * 360

/-- The run of the unwrapping state machine over an observation sequence,
starting from the first wrapped angle with round counter 0 (`_round` is
initialised to 0 in the tracker). Element `k` holds `(round, wrapped)`
after the `k`-th observation. -/
def unwrapRun (w0 : ℤ) (ws : List ℤ) : List (ℤ × ℤ) :=
  List.scanl unwrapStep (0, w0) ws

/-- One step of a wrapped-angle sequence that monotonically increases past
revolution boundaries: either the wrapped value increases by less than
half a revolution, or it wraps (decreases, with a raw backward jump of
more than half a revolution). -/
def stepOk (a b : ℤ) : Prop := (a < b ∧ b - a < 180) ∨ (b < a ∧ a - b > 180)

instance stepOk.dec : DecidableRel stepOk :=
  fun a b => decidable_of_iff ((a < b ∧ b - a < 180) ∨ (b < a ∧ a - b > 180)) Iff.rfl

/-- The per-step conclusion for the unwrapping run: a wrap increments the
round counter by exactly one, a non-wrapping increase leaves it
unchanged, and the total angle strictly increases. -/
def unwrapR (s t : ℤ × ℤ) : Prop :=
  (t.2 < s.2 → t.1 = s.1 + 1) ∧ (s.2 < t.2 → t.1 = s.1) ∧ totalAngle s < totalAngle t

instance unwrapR.dec : DecidableRel unwrapR :=
  fun s t => decidable_of_iff
    ((t.2 < s.2 → t.1 = s.1 + 1) ∧ (s.2 < t.2 → t.1 = s.1) ∧ totalAngle s < totalAngle t)
    Iff.rfl

/-! ### Combo cloning (src/extra/combo/src/combo.cpp)

Features live in a store (a list indexed by address); `feature_ptr`
values are addresses into it. Allocation appends to the store. -/

/-- The attributes of a feature relevant to `DefaultCombo`. -/
structure Feature where
  center : Pt
  width : ℤ
  height : ℤ
  angle : ℤ
  corners : List Pt
  type : ℕ
deriving DecidableEq

instance : Inhabited Feature := ⟨⟨⟨0, 0⟩, 0, 0, 0, [], 0⟩⟩

/-- Modelled from the spec: `feature::clone` (its body is not among the
sources at hand) deep-copies a feature, i.e. allocates a fresh object
holding the same value. Returns the fresh address and the new store. -/
def Feature.cloneAlloc (store : List Feature) (a : ℕ) : ℕ × List Feature :=
  (store.length, store ++ [store.getD a default])

/-- A combo (`DefaultCombo`): addresses of its owned features plus the
derived attributes copied in the `DefaultCombo` constructor. -/
structure Combo where
  features : List ℕ
  center : Pt
  angle : ℤ
  width : ℤ
  height : ℤ
  corners : List Pt
  type : ℕ
  tick : ℤ
deriving DecidableEq

/-- The loop of `DefaultCombo::clone`: replace each feature address by the
address of a fresh deep copy, threading the store left to right. -/
def cloneFeatures (store : List Feature) : List ℕ → List ℕ × List Feature
  | [] => ([], store)
  | a :: as =>
    ((Feature.cloneAlloc store a).1 :: (cloneFeatures (Feature.cloneAlloc store a).2 as).1,
     (cloneFeatures (Feature.cloneAlloc store a).2 as).2)

/-- `DefaultCombo::clone`: copy the combo, deep-copy every feature, stamp
the new tick. -/
def Combo.clone (store : List Feature) (c : Combo) (tick : ℤ) : Combo × List Feature :=
  let p := cloneFeatures store c.features
  ({ c with features := p.1, tick := tick }, p.2)

/-! ### Tag construction (src/extra/feature/src/tag/tag.cpp) -/

/-- A tag feature: corners, centroid, width, height, type. -/
structure Tag where
  corners : List Pt
  center : Pt
  width : ℤ
  height : ℤ
  type : ℕ
deriving DecidableEq

/-- The `Tag::Tag(corners, type)` constructor. `dist` is `getDistance`
(defined in rmvl/core/math.hpp, external to this translation unit).
The corner list is modelled as a list so that the runtime size guard in
the constructor body is meaningful; a size other than 4 raises
`RMVL_Error_(RMVL_StsBadArg, ...)`, modelled as `Except.error` carrying
the formatted message. The centroid division `center /= 4` is
truncating here (the C++ keeps a float centroid; no claim depends on
the centroid value). -/
def Tag.make (dist : Pt → Pt → ℤ) (corners : List Pt) (tagType : ℕ) : Except String Tag :=
  if corners.length ≠ 4 then
    Except.error ("the size of the argument \"corners\" should be 4, but now it is "
      ++ toString corners.length ++ ".")
  else
    let csum := corners.foldl (fun acc p => Pt.mk (acc.x + p.x) (acc.y + p.y)) ⟨0, 0⟩
    let center : Pt := ⟨Int.tdiv csum.x 4, Int.tdiv csum.y 4⟩
    let length1 := dist (corners.getD 0 ⟨0, 0⟩) (corners.getD 1 ⟨0, 0⟩)
    let length2 := dist (corners.getD 1 ⟨0, 0⟩) (corners.getD 2 ⟨0, 0⟩)
    let width := if length1 > length2 then length1 else length2
    let height := if width = length1 then length2 else length1
    Except.ok ⟨corners, center, width, height, tagType⟩

/-! ### Concrete fixtures used by the witness theorems -/

/-- Three blobs ordered left to right by center x. -/
def blobA : Blob := ⟨1, ⟨100, 200⟩, 5⟩

/-- See `blobA`. -/
def blobB : Blob := ⟨2, ⟨120, 200⟩, 5⟩

/-- See `blobA`. -/
def blobC : Blob := ⟨3, ⟨140, 200⟩, 5⟩

/-- A concrete armor built from `blobA` and `blobC`. -/
def armorAC : Armor := ⟨10, 1, 3, 40, 0⟩

/-- A concrete `Armor::make_combo`: only the pair `(blobA, blobC)` forms
an armor. -/
def mkComboW : Blob → Blob → Option Armor := fun u v =>
  if u.id = 1 ∧ v.id = 3 then some armorAC else none

/-- A concrete `Armor::isContainBlob`: `blobB` lies inside `armorAC`. -/
def isContainW : Blob → Armor → Bool := fun bk a => decide (bk.id = 2 ∧ a.id = 10)

/-- Armors sharing the left feature 10 with distinct widths. -/
def armW1 : Armor := ⟨1, 10, 11, 50, 5⟩

/-- See `armW1`. -/
def armW2 : Armor := ⟨2, 10, 12, 60, 9⟩

/-- Armor whose left feature is the right feature of `armW2`. -/
def armW3 : Armor := ⟨3, 12, 13, 55, 1⟩

/-- Armors sharing the left feature 10 with equal widths. -/
def armT1 : Armor := ⟨1, 10, 11, 50, 7⟩

/-- See `armT1`. -/
def armT2 : Armor := ⟨2, 10, 12, 50, 3⟩

/-- An all-black image. -/
def imgZero : Image := ⟨480, 640, fun _ _ => (0, 0, 0)⟩

/-- An image identical to `imgZero` on every in-bounds pixel
(columns 0..639) and bright on the out-of-bounds columns `x ≥ cols`. -/
def imgOut : Image := ⟨480, 640, fun _ x => if 640 ≤ x then (250, 250, 250) else (0, 0, 0)⟩

/-- A blob whose brightness sampling reaches column `x = cols = 640`. -/
def blobBright : Blob := ⟨4, ⟨635, 100⟩, 5⟩

/-- A concrete contour area function. -/
def areaW : ℕ → ℤ := fun _ => 100

/-- A concrete `LightBlob::make_feature`. -/
def mkBlobW : ℕ → Option Blob := fun n =>
  if n = 0 then some blobA else if n = 1 then some blobB else none

/-- Concrete features for the combo-clone witness. -/
def featW1 : Feature := ⟨⟨10, 20⟩, 8, 30, 75, [⟨1, 2⟩, ⟨3, 4⟩], 4⟩

/-- See `featW1`. -/
def featW2 : Feature := ⟨⟨40, 22⟩, 9, 31, 80, [⟨5, 6⟩], 2⟩

/-- A store holding `featW1` and `featW2` at addresses 0 and 1. -/
def storeW : List Feature := [featW1, featW2]

/-- A combo owning the two features of `storeW`. -/
def comboW : Combo := ⟨[0, 1], ⟨25, 21⟩, 77, 12, 30, [⟨1, 2⟩], 3, 100⟩

/-- Squared Euclidean distance, a concrete stand-in for `getDistance`. -/
def distSq : Pt → Pt → ℤ := fun p q =>
  (p.x - q.x) * (p.x - q.x) + (p.y - q.y) * (p.y - q.y)

/-- A corner list of the wrong size. -/
def cornersBad : List Pt := [⟨0, 0⟩, ⟨5, 0⟩, ⟨5, 2⟩]

/-- A well-formed corner list (a 5-by-2 rectangle). -/
def cornersGood : List Pt := [⟨0, 0⟩, ⟨5, 0⟩, ⟨5, 2⟩, ⟨0, 2⟩]

/-- The tag built from `cornersGood` under `distSq`. -/
def tagGood : Tag := ⟨cornersGood, ⟨2, 1⟩, 25, 4, 0⟩

/-! ### Theorems -/

/-- Helper: a pair whose `markStep` marks its second element erases
exactly that element from the two-armor list. -/
theorem erasePair_snd {x y : Armor} (h : markStep x y = some y) (hid : x.id ≠ y.id) :
    eraseErrorArmors [x, y] = [x] := by
  have hm : markedIds [x, y] = [y.id] := by
    simp [markedIds, allPairs, h]
  unfold eraseErrorArmors
  rw [if_neg (by simp)]
  rw [hm]
  simp [List.filter, hid]

/-- Helper: a pair whose `markStep` marks its first element erases
exactly that element from the two-armor list. -/
theorem erasePair_fst {x y : Armor} (h : markStep x y = some x) (hid : x.id ≠ y.id) :
    eraseErrorArmors [x, y] = [y] := by
  have hm : markedIds [x, y] = [x.id] := by
    simp [markedIds, allPairs, h]
  unfold eraseErrorArmors
  rw [if_neg (by simp)]
  rw [hm]
  simp [List.filter, Ne.symm hid]

/-- Helper: `markStep` on a pair sharing a feature in the same role. -/
theorem markStep_same {x y : Armor} (h : x.left = y.left ∨ x.right = y.right) :
    markStep x y = some (if y.width < x.width then x else y) := by
  unfold markStep
  rw [if_pos h]

/-- Helper: `markStep` on a pair sharing a feature in opposite roles only. -/
theorem markStep_opp {x y : Armor} (h1 : ¬(x.left = y.left ∨ x.right = y.right))
    (h2 : x.left = y.right ∨ x.right = y.left) :
    markStep x y = some (if y.error < x.error then x else y) := by
  unfold markStep
  rw [if_neg h1, if_pos h2]

/-- C4: `GyroTracker::updateVanishState` increments the vanish counter by
exactly one per `VANISH` update — so `N` consecutive vanish updates
increase it by exactly `N` — and a single `APPEAR` update resets it to
0 whatever its prior value. -/
theorem C4_vanish_counter :
    (∀ (n N : ℕ), (fun m => updateVanishState VanishState.VANISH m)^[N] n = n + N) ∧
    (∀ m : ℕ, updateVanishState VanishState.APPEAR m = 0) := by
  constructor
  · intro n N
    induction N generalizing n with
    | zero => rfl
    | succ k ih =>
      rw [Function.iterate_succ_apply, ih]
      simp [updateVanishState]
      omega
  · intro m
    rfl

/-- C8: the claim that every sampled pixel coordinate is clamped into
`[0, cols-1]` fails. The clamp in `GyroDetector::eraseBrightBlobs` uses
`x > src.cols` (not `>=`), so a sample landing exactly on `x = cols`
is left unclamped and the read `src.at(y, 640)` on a 640-column image
is out of bounds. With `cols = 640`, center x 635, height 5, the offset
`i = -5` samples `x = 635 + 5 = 640`: the clamped coordinate equals
`cols`, outside the valid range `[0, cols-1]`. Moreover `imgOut` and
`imgZero` agree on every in-bounds pixel (they differ only at columns
`x ≥ 640`), yet the brightness sums differ, so the computation reads
out-of-bounds data. -/
theorem C8_clamp_out_of_bounds :
    clampX 640 (sampleX 635 5 (-5)) = 640 ∧
    ¬ clampX 640 (sampleX 635 5 (-5)) ≤ 640 - 1 ∧
    totalBrightness imgOut blobBright ≠ totalBrightness imgZero blobBright := by
  decide

/-- C9: constructing a `Tag` from a corner list whose size is not 4 yields
the descriptive `RMVL_StsBadArg` error and produces no object, and a
corner list of exactly 4 corners yields a constructed tag and no error. -/
theorem C9_tag_corner_guard (dist : Pt → Pt → ℤ) (corners : List Pt) (tagType : ℕ) :
    (corners.length ≠ 4 →
      Tag.make dist corners tagType =
        Except.error ("the size of the argument \"corners\" should be 4, but now it is "
          ++ toString corners.length ++ ".")) ∧
    (corners.length = 4 → ∃ t, Tag.make dist corners tagType = Except.ok t) := by
  constructor
  · intro h
    unfold Tag.make
    rw [if_pos h]
  · intro h
    exact ⟨_, by unfold Tag.make; rw [if_neg (by simp [h])]⟩

/-- C9 witness: at the concrete corner lists `cornersBad` (size 3) and
`cornersGood` (size 4). -/
theorem C9_tag_corner_guard_witness :
    Tag.make distSq cornersBad 0 =
      Except.error ("the size of the argument \"corners\" should be 4, but now it is "
        ++ toString cornersBad.length ++ ".") ∧
    ∃ t, Tag.make distSq cornersGood 0 = Except.ok t :=
  ⟨(C9_tag_corner_guard distSq cornersBad 0).1 (by decide),
   (C9_tag_corner_guard distSq cornersGood 0).2 (by decide)⟩

/-- C10: every constructed tag has width equal to the larger of the two
adjacent edge lengths `corner0-corner1` and `corner1-corner2`, height
equal to the smaller, hence height ≤ width. -/
theorem C10_tag_width_height (dist : Pt → Pt → ℤ) (corners : List Pt) (tagType : ℕ) (t : Tag)
    (h : Tag.make dist corners tagType = Except.ok t) :
    t.width = max (dist (corners.getD 0 ⟨0, 0⟩) (corners.getD 1 ⟨0, 0⟩))
        (dist (corners.getD 1 ⟨0, 0⟩) (corners.getD 2 ⟨0, 0⟩)) ∧
    t.height = min (dist (corners.getD 0 ⟨0, 0⟩) (corners.getD 1 ⟨0, 0⟩))
        (dist (corners.getD 1 ⟨0, 0⟩) (corners.getD 2 ⟨0, 0⟩)) ∧
    t.height ≤ t.width := by
  unfold Tag.make at h
  by_cases hl : corners.length ≠ 4
  · rw [if_pos hl] at h
    exact absurd h (by simp)
  · rw [if_neg hl] at h
    injection h with h2
    subst h2
    dsimp only
    rw [max_def, min_def]
    split_ifs <;> omega

/-- C10 witness: the rectangle `cornersGood` under `distSq` gives the tag
`tagGood` with width 25, height 4. -/
theorem C10_tag_width_height_witness :
    tagGood.width = max (distSq (cornersGood.getD 0 ⟨0, 0⟩) (cornersGood.getD 1 ⟨0, 0⟩))
        (distSq (cornersGood.getD 1 ⟨0, 0⟩) (cornersGood.getD 2 ⟨0, 0⟩)) ∧
    tagGood.height = min (distSq (cornersGood.getD 0 ⟨0, 0⟩) (cornersGood.getD 1 ⟨0, 0⟩))
        (distSq (cornersGood.getD 1 ⟨0, 0⟩) (cornersGood.getD 2 ⟨0, 0⟩)) ∧
    tagGood.height ≤ tagGood.width :=
  C10_tag_width_height distSq cornersGood 0 tagGood (by rfl)

/-- Helper: both components of a pair produced by `allPairs` are members
of the underlying list. -/
theorem allPairs_mem {γ : Type} : ∀ {l : List γ} {p : γ × γ}, p ∈ allPairs l → p.1 ∈ l ∧ p.2 ∈ l := by
  intro l
  induction l with
  | nil =>
    intro p hp
    simp [allPairs] at hp
  | cons x xs ih =>
    intro p hp
    simp only [allPairs, List.mem_append, List.mem_map] at hp
    rcases hp with ⟨y, hy, rfl⟩ | hp
    · exact ⟨by simp, by simp [hy]⟩
    · obtain ⟨h1, h2⟩ := ih hp
      exact ⟨by simp [h1], by simp [h2]⟩

/-- Helper: the armor marked by any pair of the single pass lands in
`markedIds`. -/
theorem markedIds_of_markStep {armors : List Armor} {p : Armor × Armor} {c : Armor}
    (hp : p ∈ allPairs armors) (hc : markStep p.1 p.2 = some c) :
    c.id ∈ markedIds armors := by
  unfold markedIds
  rw [List.mem_filterMap]
  exact ⟨p, hp, by rw [hc]; rfl⟩

/-- Helper: fewer than two armors yield no pair. -/
theorem allPairs_short {armors : List Armor} (h : armors.length < 2) :
    allPairs armors = [] := by
  match armors, h with
  | [], _ => rfl
  | [a], _ => rfl

/-- C2: in `GyroDetector::eraseErrorArmors`, over the single pass on all
pairs of the input list: a pair sharing a feature in the same role
marks the strictly wider armor removable; a pair sharing a feature in
opposite roles (the armors having distinct left and right features, the
documented combo invariant) marks the strictly larger-error armor
removable; the returned list keeps exactly the unmarked armors of the
input; and `markedIds` contains precisely the identities marked by some
pair of the single (non-iterated) pass. -/
theorem C2_conflict_resolution (armors : List Armor)
    (hlr : ∀ x ∈ armors, x.left ≠ x.right) :
    (∀ p ∈ allPairs armors, (p.1.left = p.2.left ∨ p.1.right = p.2.right) →
      ((p.2.width < p.1.width → p.1.id ∈ markedIds armors) ∧
       (p.1.width < p.2.width → p.2.id ∈ markedIds armors))) ∧
    (∀ p ∈ allPairs armors, (p.1.left = p.2.right ∨ p.1.right = p.2.left) →
      ((p.2.error < p.1.error → p.1.id ∈ markedIds armors) ∧
       (p.1.error < p.2.error → p.2.id ∈ markedIds armors))) ∧
    (∀ x ∈ armors, (x ∈ eraseErrorArmors armors ↔ x.id ∉ markedIds armors)) ∧
    (∀ x ∈ eraseErrorArmors armors, x ∈ armors) ∧
    (∀ i ∈ markedIds armors, ∃ p ∈ allPairs armors, (markStep p.1 p.2).map Armor.id = some i) ∧
    (∀ p ∈ allPairs armors, ∀ c, markStep p.1 p.2 = some c → c.id ∈ markedIds armors) := by
  refine ⟨?_, ?_, ?_, ?_, ?_, ?_⟩
  · intro p hp hs
    constructor
    · intro hw
      exact markedIds_of_markStep hp (by rw [markStep_same hs, if_pos hw])
    · intro hw
      exact markedIds_of_markStep hp (by rw [markStep_same hs, if_neg (by omega)])
  · intro p hp hopp
    have hmem := allPairs_mem hp
    have hs : ¬(p.1.left = p.2.left ∨ p.1.right = p.2.right) := by
      rintro (h1 | h1) <;> rcases hopp with h2 | h2
      · exact hlr p.2 hmem.2 (h1.symm.trans h2)
      · exact hlr p.1 hmem.1 (h1.trans h2.symm)
      · exact hlr p.1 hmem.1 (h2.trans h1.symm)
      · exact hlr p.2 hmem.2 (h2.symm.trans h1)
    constructor
    · intro he
      exact markedIds_of_markStep hp (by rw [markStep_opp hs hopp, if_pos he])
    · intro he
      exact markedIds_of_markStep hp (by rw [markStep_opp hs hopp, if_neg (by omega)])
  · intro x hx
    unfold eraseErrorArmors
    by_cases hlen : armors.length < 2
    · rw [if_pos hlen]
      have hm : markedIds armors = [] := by
        unfold markedIds
        rw [allPairs_short hlen]
        rfl
      rw [hm]
      simp [hx]
    · rw [if_neg hlen]
      simp [List.mem_filter, hx]
  · intro x hx
    unfold eraseErrorArmors at hx
    by_cases hlen : armors.length < 2
    · rwa [if_pos hlen] at hx
    · rw [if_neg hlen] at hx
      exact List.mem_of_mem_filter hx
  · intro i hi
    unfold markedIds at hi
    exact List.mem_filterMap.mp hi
  · intro p hp c hc
    exact markedIds_of_markStep hp hc

/-- C2 witness: the amended-free statement applied to the concrete list
`[armW1, armW2, armW3]` (same-role overlap between `armW1` and `armW2`,
opposite-role overlap between `armW2` and `armW3`). -/
theorem C2_conflict_resolution_witness :
    (∀ x ∈ [armW1, armW2, armW3], x.left ≠ x.right) ∧
    ((∀ p ∈ allPairs [armW1, armW2, armW3],
        (p.1.left = p.2.left ∨ p.1.right = p.2.right) →
        ((p.2.width < p.1.width → p.1.id ∈ markedIds [armW1, armW2, armW3]) ∧
         (p.1.width < p.2.width → p.2.id ∈ markedIds [armW1, armW2, armW3]))) ∧
      (∀ p ∈ allPairs [armW1, armW2, armW3],
        (p.1.left = p.2.right ∨ p.1.right = p.2.left) →
        ((p.2.error < p.1.error → p.1.id ∈ markedIds [armW1, armW2, armW3]) ∧
         (p.1.error < p.2.error → p.2.id ∈ markedIds [armW1, armW2, armW3]))) ∧
      (∀ x ∈ [armW1, armW2, armW3],
        (x ∈ eraseErrorArmors [armW1, armW2, armW3] ↔
          x.id ∉ markedIds [armW1, armW2, armW3])) ∧
      (∀ x ∈ eraseErrorArmors [armW1, armW2, armW3], x ∈ [armW1, armW2, armW3]) ∧
      (∀ i ∈ markedIds [armW1, armW2, armW3],
        ∃ p ∈ allPairs [armW1, armW2, armW3], (markStep p.1 p.2).map Armor.id = some i) ∧
      (∀ p ∈ allPairs [armW1, armW2, armW3], ∀ c, markStep p.1 p.2 = some c →
        c.id ∈ markedIds [armW1, armW2, armW3])) :=
  ⟨by decide, C2_conflict_resolution [armW1, armW2, armW3] (by decide)⟩

/-- C3 counterexample: with two armors sharing their left feature and
having equal widths, the survivor of conflict resolution depends on the
order of the input list: `[armT1, armT2]` keeps `armT1` while
`[armT2, armT1]` keeps `armT2`. This refutes the claim that the
survivor is input-order independent including at equal width. -/
theorem C3_order_dependent_tie :
    eraseErrorArmors [armT1, armT2] = [armT1] ∧
    eraseErrorArmors [armT2, armT1] = [armT2] := by
  decide

/-- C3 amended: for two armors sharing a feature, when the widths (same
role) or errors (opposite roles) strictly differ the survivor is the
narrower/smaller-error armor in either input order; on an exact tie the
pair marks the armor that comes later in the list, so the earlier one
survives and the survivor depends on input order. -/
theorem C3_conflict_survivor (a b : Armor) (hid : a.id ≠ b.id) :
    ((a.left = b.left ∨ a.right = b.right) → a.width < b.width →
      eraseErrorArmors [a, b] = [a] ∧ eraseErrorArmors [b, a] = [a]) ∧
    ((a.left = b.left ∨ a.right = b.right) → a.width = b.width →
      eraseErrorArmors [a, b] = [a] ∧ eraseErrorArmors [b, a] = [b]) ∧
    (¬(a.left = b.left ∨ a.right = b.right) → (a.left = b.right ∨ a.right = b.left) →
      a.error < b.error →
      eraseErrorArmors [a, b] = [a] ∧ eraseErrorArmors [b, a] = [a]) ∧
    (¬(a.left = b.left ∨ a.right = b.right) → (a.left = b.right ∨ a.right = b.left) →
      a.error = b.error →
      eraseErrorArmors [a, b] = [a] ∧ eraseErrorArmors [b, a] = [b]) := by
  have hsymm : ∀ p q : Armor, (p.left = q.left ∨ p.right = q.right) →
      (q.left = p.left ∨ q.right = p.right) := by
    intro p q hpq
    rcases hpq with h | h
    · exact Or.inl h.symm
    · exact Or.inr h.symm
  have hosymm : ∀ p q : Armor, (p.left = q.right ∨ p.right = q.left) →
      (q.left = p.right ∨ q.right = p.left) := by
    intro p q hpq
    rcases hpq with h | h
    · exact Or.inr h.symm
    · exact Or.inl h.symm
  have hnsymm : ∀ p q : Armor, ¬(p.left = q.left ∨ p.right = q.right) →
      ¬(q.left = p.left ∨ q.right = p.right) := by
    intro p q hpq hqp
    exact hpq (hsymm q p hqp)
  refine ⟨?_, ?_, ?_, ?_⟩
  · intro hs hw
    constructor
    · refine erasePair_snd ?_ hid
      rw [markStep_same hs, if_neg (by omega)]
    · refine erasePair_fst ?_ (Ne.symm hid)
      rw [markStep_same (hsymm a b hs), if_pos hw]
  · intro hs hw
    constructor
    · refine erasePair_snd ?_ hid
      rw [markStep_same hs, if_neg (by omega)]
    · refine erasePair_snd ?_ (Ne.symm hid)
      rw [markStep_same (hsymm a b hs), if_neg (by omega)]
  · intro hns ho he
    constructor
    · refine erasePair_snd ?_ hid
      rw [markStep_opp hns ho, if_neg (by omega)]
    · refine erasePair_fst ?_ (Ne.symm hid)
      rw [markStep_opp (hnsymm a b hns) (hosymm a b ho), if_pos he]
  · intro hns ho he
    constructor
    · refine erasePair_snd ?_ hid
      rw [markStep_opp hns ho, if_neg (by omega)]
    · refine erasePair_snd ?_ (Ne.symm hid)
      rw [markStep_opp (hnsymm a b hns) (hosymm a b ho), if_neg (by omega)]

/-- Helper: cloning only appends to the store. -/
theorem cloneFeatures_store_extends :
    ∀ (as : List ℕ) (store : List Feature), ∃ ext, (cloneFeatures store as).2 = store ++ ext := by
  intro as
  induction as with
  | nil =>
    intro store
    exact ⟨[], by simp [cloneFeatures]⟩
  | cons a as ih =>
    intro store
    obtain ⟨ext, hext⟩ := ih (store ++ [store.getD a default])
    refine ⟨store.getD a default :: ext, ?_⟩
    simp only [cloneFeatures, Feature.cloneAlloc]
    rw [hext]
    simp

/-- Helper: every address produced by the cloning loop is fresh (at or
beyond the end of the incoming store). -/
theorem cloneFeatures_fresh :
    ∀ (as : List ℕ) (store : List Feature) (n : ℕ),
      n ∈ (cloneFeatures store as).1 → store.length ≤ n := by
  intro as
  induction as with
  | nil =>
    intro store n hn
    simp [cloneFeatures] at hn
  | cons a as ih =>
    intro store n hn
    simp only [cloneFeatures, Feature.cloneAlloc, List.mem_cons] at hn
    rcases hn with rfl | hn
    · exact le_refl _
    · have h2 := ih (store ++ [store.getD a default]) n hn
      simp only [List.length_append, List.length_singleton] at h2
      omega

/-- Helper: the cloning loop produces one fresh address per feature. -/
theorem cloneFeatures_length :
    ∀ (as : List ℕ) (store : List Feature), (cloneFeatures store as).1.length = as.length := by
  intro as
  induction as with
  | nil =>
    intro store
    rfl
  | cons a as ih =>
    intro store
    simp [cloneFeatures, ih]

/-- Helper: every cloned address holds the same feature value as the
original address it copies, position by position. -/
theorem cloneFeatures_copy :
    ∀ (as : List ℕ) (store : List Feature), (∀ x ∈ as, x < store.length) →
      ∀ i ∈ List.range as.length,
        (cloneFeatures store as).2.getD ((cloneFeatures store as).1.getD i 0) default =
          store.getD (as.getD i 0) default := by
  intro as
  induction as with
  | nil =>
    intro store _ i hi
    simp at hi
  | cons a as ih =>
    intro store hv i hi
    simp only [List.mem_range, List.length_cons] at hi
    cases i with
    | zero =>
      obtain ⟨ext, hext⟩ := cloneFeatures_store_extends as (store ++ [store.getD a default])
      simp only [cloneFeatures, Feature.cloneAlloc, List.getD_cons_zero, List.getD_cons_succ]
      rw [hext, List.append_assoc,
        List.getD_append_right store _ default store.length (le_refl _)]
      simp
    | succ j =>
      have hj : j < as.length := by omega
      have hv' : ∀ x ∈ as, x < (store ++ [store.getD a default]).length := by
        intro x hx
        have := hv x (by simp [hx])
        simp only [List.length_append, List.length_singleton]
        omega
      have hih := ih (store ++ [store.getD a default]) hv' j (by simp [hj])
      simp only [cloneFeatures, Feature.cloneAlloc, List.getD_cons_succ]
      rw [hih]
      apply List.getD_append
      have hmem : as.getD j 0 ∈ as := by
        rw [List.getD_eq_getElem as 0 hj]
        exact List.getElem_mem hj
      exact hv _ (List.mem_cons_of_mem a hmem)

/-- Helper: `pairChain` over a `scanl` unfolds one step. -/
theorem pairChain_scanl_cons {σ β : Type} (R : σ → σ → Prop) (f : σ → β → σ) (s : σ) (w : β)
    (l : List β) :
    pairChain R (List.scanl f s (w :: l)) ↔
      R s (f s w) ∧ pairChain R (List.scanl f (f s w) l) := by
  cases l <;> simp [List.scanl, pairChain]

/-- Helper: the unwrapping run satisfies `unwrapR` along every step, for
any starting round counter, when the wrapped input sequence increases
monotonically modulo wraps and stays inside one revolution. -/
theorem unwrap_run_chain :
    ∀ (ws : List ℤ) (round last : ℤ), 0 ≤ last → last < 360 →
      (∀ w ∈ ws, 0 ≤ w ∧ w < 360) → pairChain stepOk (last :: ws) →
      pairChain unwrapR (List.scanl unwrapStep (round, last) ws) := by
  intro ws
  induction ws with
  | nil =>
    intro round last _ _ _ _
    simp [List.scanl, pairChain]
  | cons w rest ih =>
    intro round last hl0 hl360 hws hch
    simp only [pairChain] at hch
    have hch1 : stepOk last w := hch.1
    have hch2 : pairChain stepOk (w :: rest) := hch.2
    have hw0 : 0 ≤ w := (hws w (by simp)).1
    have hw360 : w < 360 := (hws w (by simp)).2
    have hrest : ∀ v ∈ rest, 0 ≤ v ∧ v < 360 := fun v hv => hws v (by simp [hv])
    rw [pairChain_scanl_cons]
    rcases hch1 with ⟨hlt, hdel⟩ | ⟨hgt, hdel⟩
    · have hstep : unwrapStep (round, last) w = (round, w) := by
        dsimp only [unwrapStep]
        rw [if_neg (by omega), if_neg (by omega)]
      rw [hstep]
      exact ⟨by dsimp only [unwrapR, totalAngle]; omega, ih round w hw0 hw360 hrest hch2⟩
    · have hstep : unwrapStep (round, last) w = (round + 1, w) := by
        dsimp only [unwrapStep]
        rw [if_pos (by omega)]
      rw [hstep]
      exact ⟨by dsimp only [unwrapR, totalAngle]; omega, ih (round + 1) w hw0 hw360 hrest hch2⟩

/-- C5: for every wrapped-angle sequence (values in `[0, 360)`) that
monotonically increases except for wraps across the revolution
boundary (`stepOk`), the unwrapping run of the rotational tracker
satisfies: the total angle at every step equals
`wrapped + round * 360`; along every consecutive step the round counter
increases by exactly 1 at a wrap and is unchanged otherwise; and the
total-angle sequence is strictly increasing (`unwrapR`). The round
counter starts at 0 (`int _round = 0` in rune_tracker.h). The unwrap
rule itself is modelled from the spec, the body of
`RuneTracker::calculateTotalAngle` not being among the sources. -/
theorem C5_angle_unwrap (w0 : ℤ) (ws : List ℤ) (h0 : 0 ≤ w0) (h360 : w0 < 360)
    (hws : ∀ w ∈ ws, 0 ≤ w ∧ w < 360) (hch : pairChain stepOk (w0 :: ws)) :
    (∀ s ∈ unwrapRun w0 ws, totalAngle s = s.2 + s.1 * 360) ∧
    pairChain unwrapR (unwrapRun w0 ws) :=
  ⟨fun _ _ => rfl, unwrap_run_chain ws 0 w0 h0 h360 hws hch⟩

/-- C5 witness: the spec example 350, 5, 15: the wrap 350 to 5 increments
the round counter to 1 exactly once and the totals 350, 365, 375 are
strictly increasing. -/
theorem C5_angle_unwrap_witness :
    unwrapRun 350 [5, 15] = [(0, 350), (1, 5), (1, 15)] ∧
    pairChain stepOk [(350:ℤ), 5, 15] ∧
    ((∀ s ∈ unwrapRun 350 [5, 15], totalAngle s = s.2 + s.1 * 360) ∧
      pairChain unwrapR (unwrapRun 350 [5, 15])) :=
  ⟨by decide, by decide,
   C5_angle_unwrap 350 [5, 15] (by decide) (by decide) (by decide) (by decide)⟩

/-- C3 witness: the amended statement applied to `armW1`, `armW2`
(shared left feature, widths 50 < 60): `armW1` survives in both input
orders. -/
theorem C3_conflict_survivor_witness :
    armW1.id ≠ armW2.id ∧
    (eraseErrorArmors [armW1, armW2] = [armW1] ∧ eraseErrorArmors [armW2, armW1] = [armW1]) :=
  ⟨by decide, (C3_conflict_survivor armW1 armW2 (by decide)).1 (by decide) (by decide)⟩

/-- Helper: any armor emitted by the inner matching loop comes from the
pair of the fixed left blob with some blob of the remaining list, with
no blob scanned by the containment check containing it. -/
theorem mem_innerMatch {mk : Blob → Blob → Option Armor} {ic : Blob → Armor → Bool}
    {bi : Blob} {a : Armor} :
    ∀ (l between : List Blob), a ∈ innerMatch mk ic bi between l →
      ∃ mid bj rest, l = mid ++ bj :: rest ∧ mk bi bj = some a ∧
        (between ++ mid).any (fun bk => ic bk a) = false := by
  intro l
  induction l with
  | nil =>
    intro between h
    simp [innerMatch] at h
  | cons bj rest ih =>
    intro between h
    rw [innerMatch] at h
    cases hmk : mk bi bj with
    | none =>
      rw [hmk] at h
      obtain ⟨mid, bj2, rest2, heq, hmk2, hany⟩ := ih (between ++ [bj]) h
      refine ⟨bj :: mid, bj2, rest2, by rw [heq]; rfl, hmk2, ?_⟩
      rw [← List.singleton_append, ← List.append_assoc]
      exact hany
    | some armor =>
      rw [hmk] at h
      dsimp only at h
      by_cases hc : between.any (fun bk => ic bk armor) = true
      · rw [if_pos hc] at h
        obtain ⟨mid, bj2, rest2, heq, hmk2, hany⟩ := ih (between ++ [bj]) h
        refine ⟨bj :: mid, bj2, rest2, by rw [heq]; rfl, hmk2, ?_⟩
        rw [← List.singleton_append, ← List.append_assoc]
        exact hany
      · rw [if_neg hc] at h
        rcases List.mem_cons.mp h with rfl | h
        · exact ⟨[], bj, rest, rfl, hmk, by simpa using hc⟩
        · obtain ⟨mid, bj2, rest2, heq, hmk2, hany⟩ := ih (between ++ [bj]) h
          refine ⟨bj :: mid, bj2, rest2, by rw [heq]; rfl, hmk2, ?_⟩
          rw [← List.singleton_append, ← List.append_assoc]
          exact hany

/-- Helper: any armor emitted by the matching loops of
`GyroDetector::findArmors` splits the (sorted) blob list around its two
source blobs, and no blob strictly between them contains it. -/
theorem mem_outerMatch {mk : Blob → Blob → Option Armor} {ic : Blob → Armor → Bool} {a : Armor} :
    ∀ l : List Blob, a ∈ outerMatch mk ic l →
      ∃ pre bi mid bj rest, l = pre ++ bi :: (mid ++ bj :: rest) ∧ mk bi bj = some a ∧
        mid.any (fun bk => ic bk a) = false := by
  intro l
  induction l with
  | nil =>
    intro h
    simp [outerMatch] at h
  | cons x rest ih =>
    intro h
    rw [outerMatch] at h
    rcases List.mem_append.mp h with h | h
    · obtain ⟨mid, bj, rest2, heq, hmk, hany⟩ := mem_innerMatch rest [] h
      exact ⟨[], x, mid, bj, rest2, by rw [heq]; rfl, hmk, by simpa using hany⟩
    · obtain ⟨pre, bi, mid, bj, rest2, heq, hmk, hany⟩ := ih h
      exact ⟨x :: pre, bi, mid, bj, rest2, by rw [heq]; rfl, hmk, hany⟩

/-- C1: if blobs A, B, C of the input list are strictly ordered by center
x and B (by the external containment predicate) lies inside the armor
built from A and C, then `GyroDetector::findArmors` never emits that
armor. The armor built from A and C is identified by the hypothesis
that no other pair of input blobs produces it (in the C++ every
`make_combo` call allocates a distinct object, so the A-C combo can
only arise from the A-C pair). -/
theorem C1_containment_prune (blobs : List Blob) (mk : Blob → Blob → Option Armor)
    (ic : Blob → Armor → Bool) (A B C : Blob) (a : Armor)
    (hA : A ∈ blobs) (hB : B ∈ blobs) (hC : C ∈ blobs)
    (hAB : A.center.x < B.center.x) (hBC : B.center.x < C.center.x)
    (hmk : mk A C = some a)
    (huniq : ∀ u ∈ blobs, ∀ v ∈ blobs, mk u v = some a → u = A ∧ v = C)
    (hcont : ic B a = true) :
    a ∉ findArmors mk ic blobs := by
  intro hmem
  unfold findArmors at hmem
  by_cases hlen : (sortBlobs blobs).length < 2
  · rw [if_pos hlen] at hmem
    simp at hmem
  · rw [if_neg hlen] at hmem
    obtain ⟨pre, bi, mid, bj, rest, heq, hmkb, hany⟩ := mem_outerMatch _ hmem
    have hperm : ∀ x : Blob, x ∈ sortBlobs blobs ↔ x ∈ blobs :=
      fun x => (List.perm_insertionSort blobLE blobs).mem_iff
    have hbi : bi ∈ blobs := (hperm bi).mp (by rw [heq]; simp)
    have hbj : bj ∈ blobs := (hperm bj).mp (by rw [heq]; simp)
    obtain ⟨rfl, rfl⟩ := huniq bi hbi bj hbj hmkb
    have hsorted : List.Pairwise blobLE (sortBlobs blobs) :=
      List.sorted_insertionSort blobLE blobs
    rw [heq] at hsorted
    have hBmem : B ∈ pre ++ bi :: (mid ++ bj :: rest) := by
      rw [← heq]
      exact (hperm B).mpr hB
    rw [List.pairwise_append] at hsorted
    obtain ⟨_, hrest1, hcross⟩ := hsorted
    rw [List.pairwise_cons] at hrest1
    obtain ⟨_, hrest2⟩ := hrest1
    rw [List.pairwise_append] at hrest2
    obtain ⟨_, hrest3, _⟩ := hrest2
    rw [List.pairwise_cons] at hrest3
    obtain ⟨hbjall, _⟩ := hrest3
    rcases List.mem_append.mp hBmem with hBpre | hBx
    · have hle := hcross B hBpre bi (by simp)
      simp only [blobLE] at hle
      omega
    · rcases List.mem_cons.mp hBx with hBeq | hBy
      · rw [hBeq] at hAB
        exact absurd hAB (lt_irrefl _)
      · rcases List.mem_append.mp hBy with hBmid | hBz
        · have hfalse := List.any_eq_false.mp hany B hBmid
          simp [hcont] at hfalse
        · rcases List.mem_cons.mp hBz with hBeq2 | hBrest
          · rw [hBeq2] at hBC
            exact absurd hBC (lt_irrefl _)
          · have hle := hbjall B hBrest
            simp only [blobLE] at hle
            omega

/-- C1 witness: the spec scenario of three blobs at x = 100, 120, 140
where the middle blob lies inside the armor of the outer pair: the
armor is not emitted. -/
theorem C1_containment_prune_witness :
    mkComboW blobA blobC = some armorAC ∧
    (∀ u ∈ [blobA, blobB, blobC], ∀ v ∈ [blobA, blobB, blobC],
      mkComboW u v = some armorAC → u = blobA ∧ v = blobC) ∧
    isContainW blobB armorAC = true ∧
    armorAC ∉ findArmors mkComboW isContainW [blobA, blobB, blobC] :=
  ⟨by decide, by decide, by decide,
   C1_containment_prune [blobA, blobB, blobC] mkComboW isContainW blobA blobB blobC armorAC
     (by decide) (by decide) (by decide) (by decide) (by decide) (by decide) (by decide)
     (by decide)⟩

/-- C7 amended: every feature surviving the area filter and the
brightness filter appears in the feature list returned by
`GyroDetector::find` whenever at least two features survive (the
returned list is the sorted survivor list); when fewer than two
survive, `find` returns an empty feature list and an empty combo list,
dropping the survivors. -/
theorem C7_surviving_features {α : Type} (area : α → ℤ) (minArea : ℤ) (mkBlob : α → Option Blob)
    (mk : Blob → Blob → Option Armor) (ic : Blob → Armor → Bool) (img : Image)
    (contours : List α) :
    (2 ≤ (eraseBrightBlobs img (findLightBlobs area minArea mkBlob contours)).length →
      (GyroDetector.find area minArea mkBlob mk ic img contours).1 =
        sortBlobs (eraseBrightBlobs img (findLightBlobs area minArea mkBlob contours)) ∧
      ∀ b ∈ eraseBrightBlobs img (findLightBlobs area minArea mkBlob contours),
        b ∈ (GyroDetector.find area minArea mkBlob mk ic img contours).1) ∧
    ((eraseBrightBlobs img (findLightBlobs area minArea mkBlob contours)).length < 2 →
      GyroDetector.find area minArea mkBlob mk ic img contours = ([], [])) := by
  constructor
  · intro h2
    have hfind : GyroDetector.find area minArea mkBlob mk ic img contours =
        (sortBlobs (eraseBrightBlobs img (findLightBlobs area minArea mkBlob contours)),
         eraseErrorArmors (findArmors mk ic
           (eraseBrightBlobs img (findLightBlobs area minArea mkBlob contours)))) := by
      dsimp only [GyroDetector.find]
      rw [if_pos h2]
    rw [hfind]
    refine ⟨rfl, ?_⟩
    intro b hb
    exact (List.perm_insertionSort blobLE _).mem_iff.mpr hb
  · intro hlt
    dsimp only [GyroDetector.find]
    rw [if_neg (by omega)]

/-- C7 counterexample: a frame whose single contour yields one blob that
survives both the area filter and the brightness filter, yet
`GyroDetector::find` returns an empty feature list (and an empty combo
list): the survivor is dropped because fewer than two features
survived, refuting the claim that surviving features are returned in
that case. -/
theorem C7_dropped_survivors :
    blobA ∈ eraseBrightBlobs imgZero (findLightBlobs areaW 10 mkBlobW [0]) ∧
    (GyroDetector.find areaW 10 mkBlobW mkComboW isContainW imgZero [0]).1 = [] ∧
    (GyroDetector.find areaW 10 mkBlobW mkComboW isContainW imgZero [0]).2 = [] := by
  decide

/-- C7 witness: with two surviving blobs the returned feature list is the
sorted survivor list and contains every survivor. -/
theorem C7_surviving_features_witness :
    2 ≤ (eraseBrightBlobs imgZero (findLightBlobs areaW 10 mkBlobW [0, 1])).length ∧
    ((GyroDetector.find areaW 10 mkBlobW mkComboW isContainW imgZero [0, 1]).1 =
        sortBlobs (eraseBrightBlobs imgZero (findLightBlobs areaW 10 mkBlobW [0, 1])) ∧
      ∀ b ∈ eraseBrightBlobs imgZero (findLightBlobs areaW 10 mkBlobW [0, 1]),
        b ∈ (GyroDetector.find areaW 10 mkBlobW mkComboW isContainW imgZero [0, 1]).1) :=
  ⟨by decide,
   (C7_surviving_features areaW 10 mkBlobW mkComboW isContainW imgZero [0, 1]).1 (by decide)⟩

/-- C6: `DefaultCombo::clone(tick)`, run on a combo whose feature
addresses are all valid, returns a combo whose capture tick is the new
tick, whose every other derived attribute (center, angle, width,
height, corners, type) equals the original, whose feature addresses
are all fresh (no feature object is shared with the original), and
whose cloned features hold, position by position, the same feature
values as the originals; the store entries of the original features
are untouched (the new store only extends the old one), so the
original combo and its features are unchanged. -/
theorem C6_combo_clone (store : List Feature) (c : Combo) (tick : ℤ)
    (hvalid : ∀ a ∈ c.features, a < store.length) :
    (Combo.clone store c tick).1.tick = tick ∧
    (Combo.clone store c tick).1.center = c.center ∧
    (Combo.clone store c tick).1.angle = c.angle ∧
    (Combo.clone store c tick).1.width = c.width ∧
    (Combo.clone store c tick).1.height = c.height ∧
    (Combo.clone store c tick).1.corners = c.corners ∧
    (Combo.clone store c tick).1.type = c.type ∧
    (∀ a ∈ (Combo.clone store c tick).1.features, a ∉ c.features) ∧
    (Combo.clone store c tick).1.features.length = c.features.length ∧
    (∀ i ∈ List.range c.features.length,
      (Combo.clone store c tick).2.getD ((Combo.clone store c tick).1.features.getD i 0) default =
        store.getD (c.features.getD i 0) default) ∧
    (∀ a ∈ List.range store.length,
      (Combo.clone store c tick).2.getD a default = store.getD a default) := by
  refine ⟨rfl, rfl, rfl, rfl, rfl, rfl, rfl, ?_, ?_, ?_, ?_⟩
  · intro a ha hmem
    have h1 : store.length ≤ a := cloneFeatures_fresh c.features store a ha
    have h2 : a < store.length := hvalid a hmem
    omega
  · exact cloneFeatures_length c.features store
  · exact cloneFeatures_copy c.features store hvalid
  · intro a ha
    rw [List.mem_range] at ha
    obtain ⟨ext, hext⟩ := cloneFeatures_store_extends c.features store
    show (cloneFeatures store c.features).2.getD a default = store.getD a default
    rw [hext]
    exact List.getD_append store ext default a ha

/-- C6 witness: cloning `comboW` (two valid feature addresses into
`storeW`) at tick 200. -/
theorem C6_combo_clone_witness :
    (∀ a ∈ comboW.features, a < storeW.length) ∧
    ((Combo.clone storeW comboW 200).1.tick = 200 ∧
      (Combo.clone storeW comboW 200).1.center = comboW.center ∧
      (Combo.clone storeW comboW 200).1.angle = comboW.angle ∧
      (Combo.clone storeW comboW 200).1.width = comboW.width ∧
      (Combo.clone storeW comboW 200).1.height = comboW.height ∧
      (Combo.clone storeW comboW 200).1.corners = comboW.corners ∧
      (Combo.clone storeW comboW 200).1.type = comboW.type ∧
      (∀ a ∈ (Combo.clone storeW comboW 200).1.features, a ∉ comboW.features) ∧
      (Combo.clone storeW comboW 200).1.features.length = comboW.features.length ∧
      (∀ i ∈ List.range comboW.features.length,
        (Combo.clone storeW comboW 200).2.getD
            ((Combo.clone storeW comboW 200).1.features.getD i 0) default =
          storeW.getD (comboW.features.getD i 0) default) ∧
      (∀ a ∈ List.range storeW.length,
        (Combo.clone storeW comboW 200).2.getD a default = storeW.getD a default)) :=
  ⟨by decide, C6_combo_clone storeW comboW 200 (by decide)⟩

end RMVL
